import Mathlib

/-!
# Verification of the `diplomacy` order adjudicator

A shallow embedding, in Lean 4, of the parts of the `diplomacy` crate that
the checked claims are about:

* `judge/support.rs` — support-cut evaluation for the main phase;
* `judge/convoy.rs` — convoy route search for army moves;
* `judge/build.rs` and `judge/build/outcome.rs` — the build-phase resolver
  core (context, state, order resolution, outcome construction);
* `variant/standard.rs` — the standard rulebook's build-phase judge
  (`initialize`, `adjudicate`, `finish`, `distance_from_home`).

Modelling conventions:

* Rust `String`-backed identifiers (`Nation`, `ProvinceKey`) are Lean
  `String`s; equality agrees with Rust's derived equality.
* Rust `HashMap`/`HashSet` values are association lists / lists; lookups are
  first-match (`List.lookup`, `List.find?`), which agrees with `HashMap`
  behaviour whenever keys are unique (the situation in the Rust code).
* Code that can panic (`panic!`, `unwrap`, `expect`, `unimplemented!`,
  `drain` out of range) is modelled with `Option`: `none` is a panic.
* The main-phase resolver (`judge/resolver.rs`), rulebook
  (`judge/rulebook.rs`), path calculation (`judge/calc.rs`) and the static
  geography data (`geo` module) are not among the provided sources. Where a
  function under test merely calls into them, the call is abstracted into a
  function parameter (`path_exists`, `resolve`) or a structure of lookups
  (`GeoMap`), so that the functions that *are* in the sources are embedded
  verbatim. Definitions that have to stand in for missing code are marked
  `Modelled from the spec:` in their doc comments.
-/

/-- A nation, identified by its normalized short name (`nation.rs`). -/
abbrev Nation := String

/-- A province key: the stable short name of a province (`geo` module). -/
abbrev ProvinceKey := String

/-- A region: a province together with an optional coast qualifier
(`geo::RegionKey`). Two regions are equal when province and coast agree;
a region "equals" a province (Rust's `PartialEq<ProvinceKey> for RegionKey`)
when its `province` component matches, which we write out explicitly at each
use site. -/
structure RegionKey where
  province : ProvinceKey
  coast : Option String
deriving DecidableEq, Repr

/-- `unit.rs`: the two unit types. -/
inductive UnitType where
  | Army
  | Fleet
deriving DecidableEq, Repr

/-- `order::SupportedOrder`: the beneficiary of a support command. -/
inductive SupportedOrder where
  | Hold (unit_type : UnitType) (loc : RegionKey)
  | Move (unit_type : UnitType) (origin : RegionKey) (dest : RegionKey)
deriving DecidableEq, Repr

/-- `order::MainCommand`: hold, move, support, or convoy. A convoy carries a
`ConvoyedMove(from, to)`, inlined here as two regions. -/
inductive MainCommand where
  | Hold
  | Move (dest : RegionKey)
  | Support (supported : SupportedOrder)
  | Convoy (origin : RegionKey) (dest : RegionKey)
deriving DecidableEq, Repr

/-- `judge::MappedMainOrder = Order<RegionKey, MainCommand<RegionKey>>`:
a main-phase order. -/
structure MappedMainOrder where
  nation : Nation
  unit_type : UnitType
  region : RegionKey
  command : MainCommand
deriving DecidableEq, Repr

/-- `Command::move_dest` for main commands: the destination of a move, and
`none` for every other command. -/
def MainCommand.move_dest : MainCommand → Option RegionKey
  | .Move dest => some dest
  | _ => none

/-- `judge/support.rs::order_cuts`. The check `path_exists` in `calc.rs` is
not among the provided sources, so it is taken as a parameter; the Rust
function threads the resolver state into it, which the claims treat as an
opaque predicate on the cutting order. A cut requires: the cutting order is a
move whose destination province is the supporter's province, the supporter is
not supporting an attack on the cutting order's province, the two orders
belong to different nations, and the cutting move has a valid path. -/
def order_cuts (path_exists : MappedMainOrder → Bool)
    (support_order cutting_order : MappedMainOrder) : Bool :=
  match cutting_order.command.move_dest with
  | some dst =>
    let supporting_attack_on_cutter : Bool :=
      match support_order.command with
      | .Support (.Move _ _ supported_dst) =>
        cutting_order.region.province == supported_dst.province
      | _ => false
    dst.province == support_order.region.province &&
      !supporting_attack_on_cutter &&
      support_order.nation != cutting_order.nation &&
      path_exists cutting_order
  | none => false

/-- `judge/support.rs::is_order_cut`: whether any order in the turn cuts the
given support order. -/
def is_order_cut (orders : List MappedMainOrder)
    (path_exists : MappedMainOrder → Bool)
    (support_order : MappedMainOrder) : Bool :=
  orders.any (fun order => order_cuts path_exists support_order order)

/-- `judge/support.rs::find_cutting_order`: the first order that cuts the
given support order, if any. -/
def find_cutting_order (orders : List MappedMainOrder)
    (path_exists : MappedMainOrder → Bool)
    (support_order : MappedMainOrder) : Option MappedMainOrder :=
  orders.find? (fun order => order_cuts path_exists support_order order)

/-- Modelled from the spec: the full SUPPORT cut decision. The clause "A
dislodged unit's support is always cut" is stated in the doc comment of
`is_order_cut` but enforced by the main-phase rulebook (`judge/rulebook.rs`),
which is not among the provided sources; following the spec's words it is
modelled as a disjunct over the dislodgement fact for the supporting unit,
supplied as a boolean `is_dislodged`. -/
def support_is_cut (orders : List MappedMainOrder)
    (path_exists : MappedMainOrder → Bool) (is_dislodged : Bool)
    (support_order : MappedMainOrder) : Bool :=
  is_order_cut orders path_exists support_order || is_dislodged

/-- The conditions under which `cutting` cuts `support_order`, spelled out as
a proposition: a move by another nation into the supporter's province with a
valid path, except a move out of the province targeted by the supported
attack. -/
def CutsSupport (path_exists : MappedMainOrder → Bool)
    (support_order cutting : MappedMainOrder) : Prop :=
  ∃ dst, cutting.command = MainCommand.Move dst ∧
    dst.province = support_order.region.province ∧
    ¬ (∃ ut origin supported_dst,
        support_order.command =
          MainCommand.Support (SupportedOrder.Move ut origin supported_dst) ∧
        cutting.region.province = supported_dst.province) ∧
    support_order.nation ≠ cutting.nation ∧
    path_exists cutting = true

/-- Modelled from the spec: the geography capability used by the convoy
search. The `geo` module is not among the provided sources; the spec
specifies `bordering(province) → set of regions`. `route_steps` calls
`map.find_bordering(origin, None)` — the unfiltered bordering lookup — and
that is the only geography operation it uses, so the map is modelled as
exactly that lookup. -/
structure GeoMap where
  find_bordering : ProvinceKey → List RegionKey

/-- `judge/convoy.rs::ConvoyRouteError`. -/
inductive ConvoyRouteError where
  | CanOnlyConvoyArmy
  | CanOnlyConvoyMove
deriving DecidableEq, Repr

/-- Modelled from the spec: equality between a `ConvoyedMove(from, to)` and a
move order (the `PartialEq` impl lives in the absent `order` module). Per the
spec the convoy's `Convoy(Move(from,to))` argument "exactly matches the move"
when the move order starts at `from` and moves to `to`. -/
def convoyed_move_matches (origin dest : RegionKey) (mv_ord : MappedMainOrder) : Bool :=
  mv_ord.region == origin && mv_ord.command == MainCommand.Move dest

/-- `judge/convoy.rs::is_convoy_for`: whether `convoy` is a convoy order
carrying exactly the move `mv_ord`. -/
def is_convoy_for (convoy mv_ord : MappedMainOrder) : Bool :=
  match convoy.command with
  | .Convoy origin dest => convoyed_move_matches origin dest mv_ord
  | _ => false

/-- `judge/convoy.rs::route_steps`: find all convoy routes from `origin` to
`dest` using the given convoy orders, extending `working_path`. A candidate
convoy must not already be on the working path and its region must border the
current origin; the search succeeds as soon as the working path is non-empty
and some region of the destination province borders the current origin.
The Rust loop appends only non-empty recursive results; concatenation of
empty results is a no-op, so `flatMap` produces the identical list. The
source binds `adjacent_regions = map.find_bordering(origin, None)` once; the
binding is inlined here at its three use sites. -/
def route_steps (map : GeoMap) (convoys : List MappedMainOrder)
    (origin dest : ProvinceKey) (working_path : List MappedMainOrder) :
    List (List MappedMainOrder) :=
  if !working_path.isEmpty &&
      (map.find_bordering origin).any (fun r => r.province == dest) then
    [working_path]
  else
    convoys.attach.flatMap (fun c =>
      if h : c.val ∉ working_path ∧ c.val.region ∈ map.find_bordering origin then
        route_steps map convoys c.val.region.province dest (working_path ++ [c.val])
      else [])
termination_by (convoys.filter (fun x => decide (x ∉ working_path))).length
decreasing_by
  have hmem : c.val ∈ convoys := c.property
  have hsub : List.Sublist
      (convoys.filter (fun x => decide (x ∉ working_path ++ [c.val])))
      (convoys.filter (fun x => decide (x ∉ working_path))) := by
    apply List.monotone_filter_right
    intro a ha
    simp only [decide_eq_true_eq] at ha ⊢
    exact fun hw => ha (List.mem_append_left _ hw)
  rcases eq_or_lt_of_le hsub.length_le with heq | hlt
  · exfalso
    have heqlist := hsub.eq_of_length heq
    have hcp : c.val ∈ convoys.filter (fun x => decide (x ∉ working_path)) :=
      List.mem_filter.mpr ⟨hmem, by simpa using h.1⟩
    rw [← heqlist] at hcp
    have := (List.mem_filter.mp hcp).2
    simp at this
  · exact hlt

/-- A fuel-indexed, structurally recursive companion of `route_steps`, used
only to evaluate the search on concrete inputs (the well-founded recursion of
`route_steps` does not reduce definitionally in the kernel).
`route_steps_fuel_spec` proves it agrees with `route_steps` whenever the fuel
exceeds the termination measure. -/
def route_steps_fuel (fuel : Nat) (map : GeoMap) (convoys : List MappedMainOrder)
    (origin dest : ProvinceKey) (working_path : List MappedMainOrder) :
    List (List MappedMainOrder) :=
  match fuel with
  | 0 => []
  | fuel + 1 =>
    if !working_path.isEmpty &&
        (map.find_bordering origin).any (fun r => r.province == dest) then
      [working_path]
    else
      convoys.flatMap (fun c =>
        if c ∉ working_path ∧ c.region ∈ map.find_bordering origin then
          route_steps_fuel fuel map convoys c.region.province dest (working_path ++ [c])
        else [])

/-- `judge/convoy.rs::routes`: all valid convoy routes for a move order. The
adjudication of each candidate convoy order (`state.resolve(ctx, order)` into
an `OrderState`, through the resolver in the absent `judge/resolver.rs`) is
abstracted into the boolean parameter `resolve`. -/
def routes (map : GeoMap) (resolve : MappedMainOrder → Bool)
    (orders : List MappedMainOrder) (mv_ord : MappedMainOrder) :
    Except ConvoyRouteError (List (List MappedMainOrder)) :=
  if mv_ord.unit_type == UnitType.Fleet then
    Except.error ConvoyRouteError.CanOnlyConvoyArmy
  else
    match mv_ord.command.move_dest with
    | some dst =>
      let convoy_steps := orders.filter (fun order =>
        is_convoy_for order mv_ord && resolve order)
      Except.ok (route_steps map convoy_steps mv_ord.region.province dst.province [])
    | none => Except.error ConvoyRouteError.CanOnlyConvoyMove

/-- `judge/convoy.rs::route_exists`: whether any valid convoy route exists. -/
def route_exists (map : GeoMap) (resolve : MappedMainOrder → Bool)
    (orders : List MappedMainOrder) (mv_ord : MappedMainOrder) : Bool :=
  match routes map resolve orders mv_ord with
  | .ok r => !r.isEmpty
  | .error _ => false

/-- The ok-payload of a `routes` result, empty on error. -/
def routes_list (e : Except ConvoyRouteError (List (List MappedMainOrder))) :
    List (List MappedMainOrder) :=
  match e with
  | .ok rs => rs
  | .error _ => []

/-- The chain condition of the claim, relative to a current origin province:
an empty extension requires some region of the destination province to border
the origin; a non-empty one requires its first fleet to stand on a region
bordering the origin and the rest to chain from that fleet's province. -/
def fleet_chain (map : GeoMap) (origin dest : ProvinceKey) :
    List MappedMainOrder → Bool
  | [] => (map.find_bordering origin).any (fun r => r.province == dest)
  | c :: rest =>
    decide (c.region ∈ map.find_bordering origin) &&
      fleet_chain map c.region.province dest rest

/-- Concrete five-province geography for route-search examples: `o – p1`,
`p1 – p2`, `p1 – p3`, `p3 – d`, all regions coastless. -/
def exMap : GeoMap where
  find_bordering p :=
    if p = "o" then [⟨"p1", none⟩]
    else if p = "p1" then [⟨"o", none⟩, ⟨"p2", none⟩, ⟨"p3", none⟩]
    else if p = "p2" then [⟨"p1", none⟩]
    else if p = "p3" then [⟨"p1", none⟩, ⟨"d", none⟩]
    else if p = "d" then [⟨"p3", none⟩]
    else []

/-- The convoyed army move `o → d` in the example geography. -/
def exMove : MappedMainOrder :=
  ⟨"ita", UnitType.Army, ⟨"o", none⟩, MainCommand.Move ⟨"d", none⟩⟩

/-- Convoy order for `exMove` standing in `p1`. -/
def exConvoy1 : MappedMainOrder :=
  ⟨"eng", UnitType.Fleet, ⟨"p1", none⟩, MainCommand.Convoy ⟨"o", none⟩ ⟨"d", none⟩⟩

/-- Convoy order for `exMove` standing in `p2`. -/
def exConvoy2 : MappedMainOrder :=
  ⟨"fra", UnitType.Fleet, ⟨"p2", none⟩, MainCommand.Convoy ⟨"o", none⟩ ⟨"d", none⟩⟩

/-- A second, distinct convoy order for `exMove` standing in `p1` — a
different nation's order for the same region. -/
def exConvoy3 : MappedMainOrder :=
  ⟨"ger", UnitType.Fleet, ⟨"p1", none⟩, MainCommand.Convoy ⟨"o", none⟩ ⟨"d", none⟩⟩

/-- Convoy order for `exMove` standing in `p3`. -/
def exConvoy4 : MappedMainOrder :=
  ⟨"tur", UnitType.Fleet, ⟨"p3", none⟩, MainCommand.Convoy ⟨"o", none⟩ ⟨"d", none⟩⟩

/-- The example order set for the convoy-route claims. -/
def exOrders : List MappedMainOrder := [exConvoy1, exConvoy2, exConvoy3, exConvoy4]

/-- `order::BuildCommand`. -/
inductive BuildCommand where
  | Build
  | Disband
deriving DecidableEq, Repr

/-- `judge::MappedBuildOrder = BuildOrder<RegionKey>`: a build-phase order. -/
structure MappedBuildOrder where
  nation : Nation
  unit_type : UnitType
  region : RegionKey
  command : BuildCommand
deriving DecidableEq, Repr

/-- `judge/build.rs::WorldState`: the capability giving the resolver the
state of the world entering the build phase. `nations()` and `units()`
return `HashSet`s in Rust, modelled as lists. `unit_count` is a `u8`,
modelled as `Nat`. -/
structure WorldState where
  nations : List Nation
  occupier : ProvinceKey → Option Nation
  unit_count : Nation → Nat
  units : Nation → List (UnitType × RegionKey)

/-- `judge/build.rs::ResolverContext` (build phase): the immutable inputs of
a resolution. The `rules` field — the adjudicator — is supplied separately to
each embedded operation, specialised to the standard build judge. The
`last_time` `HashMap` is modelled as an association list. -/
structure BuildResolverContext where
  last_time : List (ProvinceKey × Nation)
  this_time : WorldState
  orders : List MappedBuildOrder

/-- `judge/build.rs::ResolverContext::new`: panics (modelled `none`) when the
`last_time` ownership map is empty, otherwise returns the context with the
given fields. -/
def ResolverContext_new (last_time : List (ProvinceKey × Nation))
    (this_time : WorldState) (orders : List MappedBuildOrder) :
    Option BuildResolverContext :=
  if last_time.isEmpty then none
  else some { last_time := last_time, this_time := this_time, orders := orders }

/-- `judge/build.rs::ResolverContext::current_owner`: the occupying nation if
a unit is in the province, otherwise the owner of record from `last_time`. -/
def current_owner (ctx : BuildResolverContext) (province : ProvinceKey) :
    Option Nation :=
  match ctx.this_time.occupier province with
  | some nation => some nation
  | none => ctx.last_time.lookup province

/-- `geo::SupplyCenter` (modelled from the spec: a province "may be a supply
center (None | Home(Nation) | Neutral)"; the `geo` module is absent from the
sources). -/
inductive SupplyCenter where
  | None
  | Home (nation : Nation)
  | Neutral
deriving DecidableEq, Repr

/-- `geo::Terrain` (modelled from the spec: Land, Coast, Sea). -/
inductive Terrain where
  | Land
  | Coast
  | Sea
deriving DecidableEq, Repr

/-- `geo::Province` (modelled from the spec): a stable short name plus its
supply-center status. -/
structure Province where
  key : ProvinceKey
  supply_center : SupplyCenter
deriving DecidableEq, Repr

/-- Whether a province is a supply center: its `SupplyCenter` is not `None`
(`geo` module; used by `initialize` and `finish` as `p.is_supply_center()`). -/
def Province.is_supply_center (p : Province) : Bool :=
  p.supply_center != SupplyCenter.None

/-- `geo::Region` (modelled from the spec): a region key plus its terrain. -/
structure Region where
  key : RegionKey
  terrain : Terrain
deriving DecidableEq, Repr

/-- `judge/mod.rs::UnitType::can_occupy`: armies occupy land, fleets occupy
sea, both occupy coast. -/
def UnitType.can_occupy (self : UnitType) (terrain : Terrain) : Bool :=
  match terrain with
  | Terrain.Coast => true
  | Terrain.Land => self == UnitType.Army
  | Terrain.Sea => self == UnitType.Fleet

/-- `judge/build/outcome.rs::OrderOutcome`: the verdict of a build-phase
order. -/
inductive OrderOutcome where
  | Succeeds
  | RedeploymentProhibited
  | InvalidProvince
  | ForeignControlled
  | OccupiedProvince
  | InvalidTerrain
  | DisbandingNonexistentUnit
  | DisbandingForeignUnit
  | AllBuildsUsed
  | AllDisbandsUsed
deriving DecidableEq, Repr

/-- A unit position: a nation's unit of a given type standing on a region
(`UnitPosition` in the crate root). -/
structure UnitPosition where
  nation : Nation
  unit_type : UnitType
  region : RegionKey
deriving DecidableEq, Repr

/-- `variant/standard.rs::StandardBuildJudge`: the standard build-phase
rulebook. `provinces` and `get_region` stand for `self.map.provinces()` and
`self.map.get_region` (the `geo::Map` type is absent from the sources);
`nations` is the variant's nation set. -/
structure StandardBuildJudge where
  provinces : List Province
  get_region : RegionKey → Option Region
  nations : List Nation

/-- The home supply centers of a nation, as collected by `as_build_judge`:
the provinces whose supply center is `Home(nation)`. `as_build_judge` stores
them in a `HashMap` with only non-empty entries, so a nation has an entry
exactly when this list is non-empty — which is how `adjudicate`'s
`.expect("Every nation should have home SCs")` panic is modelled below. -/
def StandardBuildJudge.home_scs (j : StandardBuildJudge) (nation : Nation) :
    List ProvinceKey :=
  (j.provinces.filter (fun p => p.supply_center == SupplyCenter.Home nation)).map
    (fun p => p.key)

/-- `variant/standard.rs::StandardBuildJudge::get_nation`: find the nation in
the judge's nation set. -/
def StandardBuildJudge.get_nation (j : StandardBuildJudge) (nation : Nation) :
    Option Nation :=
  j.nations.find? (fun n => n == nation)

/-- The supply-center count credited to a nation by the initialization step
of the standard build judge: one point per supply-center province whose
current owner resolves (through `get_nation`) to that nation. -/
def sc_count (j : StandardBuildJudge) (ctx : BuildResolverContext)
    (nation : Nation) : Nat :=
  (j.provinces.filter (fun p => p.is_supply_center)).countP
    (fun p => ((current_owner ctx p.key).bind (fun n => j.get_nation n)) == some nation)

/-- The adjustment recorded for one nation: `none` when supply centers equal
units; otherwise the allowed command direction and the magnitude. The Rust
arithmetic is on `i16`, modelled as `Int`. -/
def nation_adjustment (j : StandardBuildJudge) (ctx : BuildResolverContext)
    (nation : Nation) : Option (BuildCommand × Nat) :=
  let adjustment : Int :=
    (sc_count j ctx nation : Int) - (ctx.this_time.unit_count nation : Int)
  if adjustment = 0 then none
  else if 0 < adjustment then some (BuildCommand.Build, adjustment.toNat)
  else some (BuildCommand.Disband, (-adjustment).toNat)

/-- The initialization step of `variant/standard.rs` (`fn initialize`; that
word is unavailable as a Lean identifier here, hence `init_data`): the custom
state mapping each nation with a non-zero delta to its allowed command and
remaining quota. The Rust `HashMap` is modelled as an association list keyed
by the judge's nation set. -/
def StandardBuildJudge.init_data (j : StandardBuildJudge)
    (ctx : BuildResolverContext) : List (Nation × (BuildCommand × Nat)) :=
  j.nations.filterMap (fun nation =>
    (nation_adjustment j ctx nation).map (fun a => (nation, a)))

/-- `judge/build.rs::ResolverState`: the mutable build-phase resolution
state. `data` is the rulebook custom state (the adjustment table), `orders`
the verdict cache keyed by order value, `live_units` the per-nation unit sets
that change as orders succeed. -/
structure BuildResolverState where
  data : List (Nation × (BuildCommand × Nat))
  orders : List (MappedBuildOrder × OrderOutcome)
  live_units : List (Nation × List (UnitType × RegionKey))
deriving DecidableEq, Repr

/-- `judge/build.rs::ResolverState::new`: empty verdict cache; live units
seeded from the world state for every nation. -/
def BuildResolverState_new (ctx : BuildResolverContext)
    (data : List (Nation × (BuildCommand × Nat))) : BuildResolverState :=
  { data := data, orders := [],
    live_units := ctx.this_time.nations.map
      (fun nation => (nation, ctx.this_time.units nation)) }

/-- `judge/build.rs::ResolverState::occupier`: the first nation with a unit
in the given province. -/
def BuildResolverState.occupier (state : BuildResolverState)
    (province : ProvinceKey) : Option Nation :=
  state.live_units.findSome? (fun nu =>
    if nu.2.any (fun u => u.2.province == province) then some nu.1 else none)

/-- `judge/build.rs::ResolverState::build_unit`: insert the unit into its
nation's set (`HashSet::insert`: a no-op when already present); errors —
propagated as a panic by `resolve_order`'s `unwrap`, hence `none` — when the
nation is unknown to `live_units`. -/
def BuildResolverState.build_unit (state : BuildResolverState)
    (nation : Nation) (unit_type : UnitType) (region : RegionKey) :
    Option BuildResolverState :=
  if state.live_units.any (fun nu => nu.1 == nation) then
    some { state with live_units := state.live_units.map (fun nu =>
      if nu.1 == nation then
        (nu.1, if (unit_type, region) ∈ nu.2 then nu.2 else nu.2 ++ [(unit_type, region)])
      else nu) }
  else none

/-- `judge/build.rs::ResolverState::disband_unit`: remove the unit from its
nation's set (a no-op — reported as `false` in Rust and ignored by the
caller — when the nation or unit is absent). -/
def BuildResolverState.disband_unit (state : BuildResolverState)
    (nation : Nation) (unit_type : UnitType) (region : RegionKey) :
    BuildResolverState :=
  { state with live_units := state.live_units.map (fun nu =>
      if nu.1 == nation then
        (nu.1, nu.2.filter (fun u => u != (unit_type, region)))
      else nu) }

/-- The `state.data.get_mut(&order.nation).unwrap().1 -= 1` step of the
standard judge's `adjudicate`: debit one from the nation's remaining quota
(guarded by the `remaining == 0` checks, so the subtraction never
truncates). -/
def decrement_remaining (state : BuildResolverState) (nation : Nation) :
    BuildResolverState :=
  { state with data := state.data.map (fun d =>
      if d.1 == nation then (d.1, (d.2.1, d.2.2 - 1)) else d) }

/-- `variant/standard.rs::StandardBuildJudge::adjudicate`. Returns the
verdict with the state (a successful order debits the adjustment table);
`none` models the `.expect("Every nation should have home SCs")` panic taken
when a building nation has no home supply centers at all. -/
def StandardBuildJudge.adjudicate (j : StandardBuildJudge)
    (ctx : BuildResolverContext) (state : BuildResolverState)
    (order : MappedBuildOrder) : Option (OrderOutcome × BuildResolverState) :=
  match state.data.lookup order.nation with
  | none => some (OrderOutcome.RedeploymentProhibited, state)
  | some (allowed_command, remaining) =>
    if order.command != allowed_command then
      some (OrderOutcome.RedeploymentProhibited, state)
    else
      match order.command with
      | BuildCommand.Build =>
        if (j.home_scs order.nation).isEmpty then none
        else if !((j.home_scs order.nation).contains order.region.province) then
          some (OrderOutcome.InvalidProvince, state)
        else if !(current_owner ctx order.region.province == some order.nation) then
          some (OrderOutcome.ForeignControlled, state)
        else if (state.occupier order.region.province).isSome then
          some (OrderOutcome.OccupiedProvince, state)
        else
          match j.get_region order.region with
          | none => some (OrderOutcome.InvalidProvince, state)
          | some region =>
            if !(order.unit_type.can_occupy region.terrain) then
              some (OrderOutcome.InvalidTerrain, state)
            else if remaining == 0 then
              some (OrderOutcome.AllBuildsUsed, state)
            else
              some (OrderOutcome.Succeeds, decrement_remaining state order.nation)
      | BuildCommand.Disband =>
        match state.occupier order.region.province with
        | none => some (OrderOutcome.DisbandingNonexistentUnit, state)
        | some nation =>
          if order.nation != nation then
            some (OrderOutcome.DisbandingForeignUnit, state)
          else if remaining == 0 then
            some (OrderOutcome.AllDisbandsUsed, state)
          else
            some (OrderOutcome.Succeeds, decrement_remaining state order.nation)

/-- `judge/build.rs::ResolverState::resolve_order`: return the cached verdict
unchanged if the order was already adjudicated; otherwise adjudicate, record
the verdict (the source inserts into the cache before the success check; the
cache-extended state is written out at each of its three uses here), and on
`Succeeds` apply the build or disband to the live units (`build_unit`'s
error is `unwrap`ed — a panic, modelled `none`). -/
def resolve_order (j : StandardBuildJudge) (ctx : BuildResolverContext)
    (state : BuildResolverState) (order : MappedBuildOrder) :
    Option (OrderOutcome × BuildResolverState) :=
  match state.orders.lookup order with
  | some outcome => some (outcome, state)
  | none =>
    match j.adjudicate ctx state order with
    | none => none
    | some (outcome, state1) =>
      if outcome == OrderOutcome.Succeeds then
        match order.command with
        | BuildCommand.Build =>
          (BuildResolverState.build_unit
              { state1 with orders := state1.orders ++ [(order, outcome)] }
              order.nation order.unit_type order.region).map
            (fun s => (outcome, s))
        | BuildCommand.Disband =>
          some (outcome,
            BuildResolverState.disband_unit
              { state1 with orders := state1.orders ++ [(order, outcome)] }
              order.nation order.unit_type order.region)
      else some (outcome, { state1 with orders := state1.orders ++ [(order, outcome)] })

/-- The loop of `judge/build.rs::ResolverContext::resolve`: adjudicate every
order in submission order, threading the state. -/
def resolve_orders (j : StandardBuildJudge) (ctx : BuildResolverContext) :
    BuildResolverState → List MappedBuildOrder → Option BuildResolverState
  | state, [] => some state
  | state, order :: rest =>
    match resolve_order j ctx state order with
    | none => none
    | some (_, next) => resolve_orders j ctx next rest

/-- The number of a nation's orders recorded `Succeeds` in the verdict
cache. -/
def success_count (state : BuildResolverState) (nation : Nation) : Nat :=
  state.orders.countP
    (fun ov => ov.1.nation == nation && ov.2 == OrderOutcome.Succeeds)

/-- The magnitude of a nation's delta in an adjustment table (`0` when the
nation is absent). -/
def delta_magnitude (data : List (Nation × (BuildCommand × Nat)))
    (nation : Nation) : Nat :=
  match data.lookup nation with
  | some d => d.2
  | none => 0

/-- `judge/build/outcome.rs::OutcomeError`. -/
inductive OutcomeError where
  | MultipleUnitsInSameProvince (province : ProvinceKey)
deriving DecidableEq, Repr

/-- `judge/build/outcome.rs::Outcome`: the frozen build-phase outcome. -/
structure BuildOutcome where
  orders : List (MappedBuildOrder × OrderOutcome)
  sc_ownerships : List (ProvinceKey × Nation)
  final_units : List UnitPosition
deriving DecidableEq, Repr

/-- The unit loop of `Outcome::new`: walk the units in order, tracking the
provinces already occupied (`HashSet::insert` returning `false` on a
repeat); fail with the offending province on the first repeat. -/
def outcome_new_units (occupied : List ProvinceKey) :
    List UnitPosition → Except ProvinceKey (List UnitPosition)
  | [] => Except.ok []
  | unit :: rest =>
    if unit.region.province ∈ occupied then
      Except.error unit.region.province
    else
      (outcome_new_units (unit.region.province :: occupied) rest).map
        (fun l => unit :: l)

/-- `judge/build/outcome.rs::Outcome::new`. -/
def Outcome_new (orders : List (MappedBuildOrder × OrderOutcome))
    (sc_ownerships : List (ProvinceKey × Nation))
    (units : List UnitPosition) : Except OutcomeError BuildOutcome :=
  match outcome_new_units [] units with
  | Except.error p => Except.error (OutcomeError.MultipleUnitsInSameProvince p)
  | Except.ok final_units =>
    Except.ok { orders := orders, sc_ownerships := sc_ownerships,
                final_units := final_units }

/-- `judge/build.rs::ResolverState::unit_positions`: all live units. -/
def BuildResolverState.unit_positions (state : BuildResolverState) :
    List UnitPosition :=
  state.live_units.flatMap (fun nu =>
    nu.2.map (fun u => { nation := nu.1, unit_type := u.1, region := u.2 }))

/-- `variant/standard.rs::distance_from_home`: the body in the source is
`unimplemented!()`, so every call panics; the panic is modelled as `none`. -/
def distance_from_home (_j : StandardBuildJudge) (_unit : UnitPosition) :
    Option Nat := none

/-- Insertion into a list sorted by descending key — scaffolding for the
`sort_by_cached_key` call with the negated-distance key. -/
def insert_desc (x : Nat × UnitPosition) :
    List (Nat × UnitPosition) → List (Nat × UnitPosition)
  | [] => [x]
  | y :: rest => if y.1 ≤ x.1 then x :: y :: rest else y :: insert_desc x rest

/-- `nation_positions.sort_by_cached_key(|p| -(distance_from_home(self.map, *p) as i16))`
in `finish`. `slice::sort_by_cached_key` returns before computing any key
when the slice has fewer than two elements, so such inputs pass through
untouched; otherwise it computes a key for every position (and each key
computation panics, since `distance_from_home` is unimplemented — so any
input of two or more positions yields `none`), then sorts by descending
distance. -/
def sort_for_disband (j : StandardBuildJudge) (positions : List UnitPosition) :
    Option (List UnitPosition) :=
  if positions.length < 2 then some positions
  else
    (positions.mapM (fun p => (distance_from_home j p).map (fun d => (d, p)))).map
      (fun keyed => (keyed.foldr insert_desc []).map (fun kp => kp.2))

/-- One nation's share of the civil-disorder disbandment in
`StandardBuildJudge::finish`: nothing for build-side or exhausted nations;
otherwise sort the nation's positions into disbandment order and drain the
first `remaining` of them (`drain(0..remaining)` panics — `none` — when
fewer positions than `remaining` exist). -/
def civil_disorder_for (j : StandardBuildJudge) (positions : List UnitPosition) :
    Nation × (BuildCommand × Nat) → Option (List UnitPosition)
  | (nation, (command, remaining)) =>
    if command == BuildCommand.Build || remaining == 0 then some []
    else
      match sort_for_disband j (positions.filter (fun p => p.nation == nation)) with
      | none => none
      | some sorted =>
        if remaining ≤ sorted.length then some (sorted.take remaining)
        else none

/-- The `positions_to_disband` computation of `StandardBuildJudge::finish`:
the concatenation of every needy nation's civil-disorder disbandments. -/
def civil_disorder_disbands (j : StandardBuildJudge)
    (state : BuildResolverState) : Option (List UnitPosition) :=
  (state.data.mapM (civil_disorder_for j state.unit_positions)).map
    (fun ls => ls.foldr (fun a b => a ++ b) [])

/-- World state for the adjustment example: France fields one army in `par`
and owns nothing. -/
def exWorld3 : WorldState where
  nations := ["fra"]
  occupier := fun _ => none
  unit_count := fun _ => 1
  units := fun _ => [(UnitType.Army, ⟨"par", none⟩)]

/-- Context for the adjustment example: England owns the only supply center
of record; no orders are submitted. -/
def exCtx3 : BuildResolverContext where
  last_time := [("lon", "eng")]
  this_time := exWorld3
  orders := []

/-- Judge for the adjustment and civil-disorder examples: one home supply
center (England's `lon`); France is the only nation in the game. -/
def exJudge3 : StandardBuildJudge where
  provinces := [⟨"lon", SupplyCenter.Home "eng"⟩]
  get_region := fun rk => some ⟨rk, Terrain.Land⟩
  nations := ["fra"]

/-- World state for the civil-disorder example: France fields two armies and
owns nothing, so two forced disbands are outstanding — enough positions for
`sort_by_cached_key` to compute keys. -/
def exWorldCd : WorldState where
  nations := ["fra"]
  occupier := fun _ => none
  unit_count := fun _ => 2
  units := fun _ => [(UnitType.Army, ⟨"par", none⟩), (UnitType.Army, ⟨"bre", none⟩)]

/-- Context for the civil-disorder example: England owns the only supply
center of record; no orders are submitted. -/
def exCtxCd : BuildResolverContext where
  last_time := [("lon", "eng")]
  this_time := exWorldCd
  orders := []

/-- World state for the occupied-province example: Austria has one army
standing in its home supply center `bud`. -/
def exWorld5 : WorldState where
  nations := ["aus"]
  occupier := fun p => if p = "bud" then some "aus" else none
  unit_count := fun _ => 1
  units := fun _ => [(UnitType.Army, ⟨"bud", none⟩)]

/-- The Austrian build order in `bud`. -/
def exOrder5 : MappedBuildOrder where
  nation := "aus"
  unit_type := UnitType.Army
  region := ⟨"bud", none⟩
  command := BuildCommand.Build

/-- Context for the occupied-province example: Austria owns `bud` and `tri`
of record and fields one unit, giving it a positive delta. -/
def exCtx5 : BuildResolverContext where
  last_time := [("bud", "aus"), ("tri", "aus")]
  this_time := exWorld5
  orders := [exOrder5]

/-- Judge for the occupied-province example: Austria's home supply centers
are `bud` and `tri`. -/
def exJudge5 : StandardBuildJudge where
  provinces := [⟨"bud", SupplyCenter.Home "aus"⟩, ⟨"tri", SupplyCenter.Home "aus"⟩]
  get_region := fun rk => some ⟨rk, Terrain.Land⟩
  nations := ["aus"]

/-- The initial resolver state of the occupied-province example. -/
def exState5 : BuildResolverState :=
  BuildResolverState_new exCtx5 (exJudge5.init_data exCtx5)

/-- World state for the build-symmetry witness: Austria fields no units. -/
def exWorld8 : WorldState where
  nations := ["aus"]
  occupier := fun _ => none
  unit_count := fun _ => 0
  units := fun _ => []

/-- Context for the build-symmetry witness: Austria owns two supply centers
of record, fields no units, and submits one build order. -/
def exCtx8 : BuildResolverContext where
  last_time := [("bud", "aus"), ("tri", "aus")]
  this_time := exWorld8
  orders := [exOrder5]

/-- Unit list with two units in province `par` — rejected by `Outcome::new`. -/
def exUnitsDup : List UnitPosition :=
  [⟨"fra", UnitType.Army, ⟨"par", none⟩⟩, ⟨"eng", UnitType.Fleet, ⟨"par", some "nc"⟩⟩]

/-- Unit list with distinct provinces — accepted by `Outcome::new`. -/
def exUnitsOk : List UnitPosition :=
  [⟨"fra", UnitType.Army, ⟨"par", none⟩⟩, ⟨"eng", UnitType.Fleet, ⟨"lon", none⟩⟩]

/-- The resolver state after the build-symmetry witness run: one successful
Austrian build, quota debited from 2 to 1. -/
def exFinal8 : BuildResolverState where
  data := [("aus", (BuildCommand.Build, 1))]
  orders := [(exOrder5, OrderOutcome.Succeeds)]
  live_units := [("aus", [(UnitType.Army, ⟨"bud", none⟩)])]

theorem order_cuts_iff (path_exists : MappedMainOrder → Bool)
    (support_order cutting : MappedMainOrder) :
    order_cuts path_exists support_order cutting = true ↔
      CutsSupport path_exists support_order cutting := by
  unfold order_cuts CutsSupport
  cases hcmd : cutting.command <;>
    simp only [MainCommand.move_dest, Bool.and_eq_true, beq_iff_eq,
      bne_iff_ne, Bool.not_eq_true']
  case Hold => simp
  case Support s => simp
  case Convoy o d => simp
  case Move dst =>
    constructor
    · rintro ⟨⟨⟨h1, h2⟩, h3⟩, h4⟩
      refine ⟨dst, rfl, h1, ?_, h3, h4⟩
      rintro ⟨ut, origin, supported_dst, hsc, hslice⟩
      rw [hsc] at h2
      simp only [beq_iff_eq] at h2
      exact absurd hslice (by simpa using h2)
    · rintro ⟨dst2, hd, h1, h2, h3, h4⟩
      injection hd with hd
      subst hd
      refine ⟨⟨⟨h1, ?_⟩, h3⟩, h4⟩
      cases hsup : support_order.command
      case Hold => rfl
      case Move d => rfl
      case Convoy o d => rfl
      case Support s =>
        cases s
        case Hold ut loc => rfl
        case Move ut origin sdst =>
          simp only [beq_eq_false_iff_ne, ne_eq]
          intro hprov
          exact h2 ⟨ut, origin, sdst, hsup, hprov⟩

/-- C1: For every main-phase support order, the support is cut exactly when
some move by another nation targets the supporter's province with a valid
path — except that a move out of the province targeted by the supported
attack never cuts a support of that attack — or when the supporting unit is
dislodged (the dislodge clause following the spec's words, since the
rulebook that enforces it is not among the provided sources). -/
theorem C1_support_cut_characterization
    (orders : List MappedMainOrder) (path_exists : MappedMainOrder → Bool)
    (is_dislodged : Bool) (support_order : MappedMainOrder) :
    support_is_cut orders path_exists is_dislodged support_order = true ↔
      ((∃ cutting ∈ orders, CutsSupport path_exists support_order cutting) ∨
        is_dislodged = true) := by
  unfold support_is_cut is_order_cut
  simp only [Bool.or_eq_true, List.any_eq_true]
  constructor
  · rintro (⟨c, hc, hcut⟩ | hd)
    · exact Or.inl ⟨c, hc, (order_cuts_iff path_exists support_order c).mp hcut⟩
    · exact Or.inr hd
  · rintro (⟨c, hc, hcut⟩ | hd)
    · exact Or.inl ⟨c, hc, (order_cuts_iff path_exists support_order c).mpr hcut⟩
    · exact Or.inr hd

theorem route_steps_sound (map : GeoMap) (convoys : List MappedMainOrder)
    (dest : ProvinceKey) :
    ∀ (n : Nat) (origin : ProvinceKey) (wp r : List MappedMainOrder),
      (convoys.filter (fun x => decide (x ∉ wp))).length ≤ n →
      r ∈ route_steps map convoys origin dest wp →
      ∃ ext, r = wp ++ ext ∧ (∀ c ∈ ext, c ∈ convoys) ∧
        fleet_chain map origin dest ext = true ∧
        (wp.Nodup → r.Nodup) ∧ r ≠ [] := by
  intro n
  induction n with
  | zero =>
    intro origin wp r hn hr
    rw [route_steps] at hr
    by_cases hg : (!wp.isEmpty &&
        (map.find_bordering origin).any (fun x => x.province == dest)) = true
    · rw [if_pos hg] at hr
      rw [List.mem_singleton] at hr
      subst hr
      rw [Bool.and_eq_true] at hg
      refine ⟨[], by simp, by simp, ?_, fun h => h, ?_⟩
      · simpa [fleet_chain] using hg.2
      · intro hnil
        rw [hnil] at hg
        simp at hg
    · rw [if_neg hg] at hr
      rw [List.mem_flatMap] at hr
      obtain ⟨c, _, hrc⟩ := hr
      by_cases hcond : c.val ∉ wp ∧ c.val.region ∈ map.find_bordering origin
      · exfalso
        have hcf : c.val ∈ convoys.filter (fun x => decide (x ∉ wp)) :=
          List.mem_filter.mpr ⟨c.property, by simpa using hcond.1⟩
        have := List.length_pos_of_mem hcf
        omega
      · rw [dif_neg hcond] at hrc
        cases hrc
  | succ n ih =>
    intro origin wp r hn hr
    rw [route_steps] at hr
    by_cases hg : (!wp.isEmpty &&
        (map.find_bordering origin).any (fun x => x.province == dest)) = true
    · rw [if_pos hg] at hr
      rw [List.mem_singleton] at hr
      subst hr
      rw [Bool.and_eq_true] at hg
      refine ⟨[], by simp, by simp, ?_, fun h => h, ?_⟩
      · simpa [fleet_chain] using hg.2
      · intro hnil
        rw [hnil] at hg
        simp at hg
    · rw [if_neg hg] at hr
      rw [List.mem_flatMap] at hr
      obtain ⟨c, _, hrc⟩ := hr
      by_cases hcond : c.val ∉ wp ∧ c.val.region ∈ map.find_bordering origin
      · rw [dif_pos hcond] at hrc
        have hsub : List.Sublist
            (convoys.filter (fun x => decide (x ∉ wp ++ [c.val])))
            (convoys.filter (fun x => decide (x ∉ wp))) := by
          apply List.monotone_filter_right
          intro a ha
          simp only [decide_eq_true_eq] at ha ⊢
          exact fun hw => ha (List.mem_append_left _ hw)
        have hlt : (convoys.filter (fun x => decide (x ∉ wp ++ [c.val]))).length <
            (convoys.filter (fun x => decide (x ∉ wp))).length := by
          rcases eq_or_lt_of_le hsub.length_le with heq | hlt
          · exfalso
            have heqlist := hsub.eq_of_length heq
            have hcp : c.val ∈ convoys.filter (fun x => decide (x ∉ wp)) :=
              List.mem_filter.mpr ⟨c.property, by simpa using hcond.1⟩
            rw [← heqlist] at hcp
            have := (List.mem_filter.mp hcp).2
            simp at this
          · exact hlt
        obtain ⟨ext, hre, hsubc, hchain, hnd, hne⟩ :=
          ih c.val.region.province (wp ++ [c.val]) r (by omega) hrc
        refine ⟨c.val :: ext, ?_, ?_, ?_, ?_, hne⟩
        · rw [hre, List.append_assoc]
          rfl
        · intro x hx
          rcases List.mem_cons.mp hx with rfl | hxe
          · exact c.property
          · exact hsubc x hxe
        · simp only [fleet_chain, Bool.and_eq_true, decide_eq_true_eq]
          exact ⟨hcond.2, hchain⟩
        · intro hwnd
          apply hnd
          rw [List.nodup_append]
          refine ⟨hwnd, List.nodup_singleton _, ?_⟩
          intro a ha hb
          rw [List.mem_singleton] at hb
          subst hb
          exact hcond.1 ha
      · rw [dif_neg hcond] at hrc
        cases hrc

theorem route_steps_fuel_spec (map : GeoMap) (convoys : List MappedMainOrder)
    (dest : ProvinceKey) :
    ∀ (fuel : Nat) (origin : ProvinceKey) (wp : List MappedMainOrder),
      (convoys.filter (fun x => decide (x ∉ wp))).length < fuel →
      route_steps_fuel fuel map convoys origin dest wp =
        route_steps map convoys origin dest wp := by
  intro fuel
  induction fuel with
  | zero => intro origin wp h; omega
  | succ fuel ih =>
    intro origin wp h
    rw [route_steps, route_steps_fuel]
    by_cases hg : (!wp.isEmpty &&
        (map.find_bordering origin).any (fun r => r.province == dest)) = true
    · rw [if_pos hg, if_pos hg]
    · rw [if_neg hg, if_neg hg]
      simp only [dite_eq_ite]
      have hattach : (convoys.attach.flatMap fun c =>
          if c.val ∉ wp ∧ c.val.region ∈ map.find_bordering origin then
            route_steps map convoys c.val.region.province dest (wp ++ [c.val])
          else []) =
          convoys.flatMap (fun c =>
            if c ∉ wp ∧ c.region ∈ map.find_bordering origin then
              route_steps map convoys c.region.province dest (wp ++ [c])
            else []) := by
        rw [List.flatMap_def,
          List.attach_map_val convoys (fun x =>
            if x ∉ wp ∧ x.region ∈ map.find_bordering origin then
              route_steps map convoys x.region.province dest (wp ++ [x])
            else []),
          ← List.flatMap_def]
      rw [hattach]
      rw [List.flatMap_def, List.flatMap_def]
      apply congrArg
      apply List.map_congr_left
      intro c hc
      by_cases hcnd : c ∉ wp ∧ c.region ∈ map.find_bordering origin
      · rw [if_pos hcnd, if_pos hcnd]
        apply ih
        have hsub : List.Sublist
            (convoys.filter (fun x => decide (x ∉ wp ++ [c])))
            (convoys.filter (fun x => decide (x ∉ wp))) := by
          apply List.monotone_filter_right
          intro a ha
          simp only [decide_eq_true_eq] at ha ⊢
          exact fun hw => ha (List.mem_append_left _ hw)
        rcases eq_or_lt_of_le hsub.length_le with heq | hlt
        · exfalso
          have heqlist := hsub.eq_of_length heq
          have hcp : c ∈ convoys.filter (fun x => decide (x ∉ wp)) :=
            List.mem_filter.mpr ⟨hc, by simpa using hcnd.1⟩
          rw [← heqlist] at hcp
          have := (List.mem_filter.mp hcp).2
          simp at this
        · omega
      · rw [if_neg hcnd, if_neg hcnd]

theorem exRoutes_eval : route_steps exMap exOrders "o" "d" [] =
    [[exConvoy1, exConvoy2, exConvoy3, exConvoy4], [exConvoy1, exConvoy4],
     [exConvoy3, exConvoy2, exConvoy1, exConvoy4], [exConvoy3, exConvoy4]] := by
  rw [← route_steps_fuel_spec exMap exOrders "d" 5 "o" [] (by decide)]
  decide

theorem exRoutes_ok : routes exMap (fun _ => true) exOrders exMove = Except.ok
    [[exConvoy1, exConvoy2, exConvoy3, exConvoy4], [exConvoy1, exConvoy4],
     [exConvoy3, exConvoy2, exConvoy1, exConvoy4], [exConvoy3, exConvoy4]] := by
  have h0 : routes exMap (fun _ => true) exOrders exMove =
      Except.ok (route_steps exMap exOrders "o" "d" []) := rfl
  rw [h0, exRoutes_eval]

/-- C2 (amended): for every army move order, every convoy route returned by
`routes` is a non-empty sequence of pairwise-distinct convoy orders, each of
whose `Convoy(Move(from,to))` commands exactly matches the move and each of
which is adjudicated successful, whose fleets form a chain — under the map's
bordering relation, the one `route_steps` queries with no terrain filter —
of regions from the army's origin province to the move's destination
province. (The original claim's "distinct regions" is weakened to "distinct
convoy orders": see the counterexample.) -/
theorem C2_routes_structure (map : GeoMap) (resolve : MappedMainOrder → Bool)
    (orders : List MappedMainOrder) (mv_ord : MappedMainOrder)
    (rs : List (List MappedMainOrder))
    (hok : routes map resolve orders mv_ord = Except.ok rs) :
    ∀ r ∈ rs, r ≠ [] ∧ r.Nodup ∧
      (∀ c ∈ r, is_convoy_for c mv_ord = true ∧ resolve c = true) ∧
      (∃ dst, mv_ord.command.move_dest = some dst ∧
        fleet_chain map mv_ord.region.province dst.province r = true) := by
  intro r hr
  unfold routes at hok
  by_cases hft : (mv_ord.unit_type == UnitType.Fleet) = true
  · rw [if_pos hft] at hok
    exact absurd hok (by simp)
  · rw [if_neg hft] at hok
    cases hmd : mv_ord.command.move_dest with
    | none =>
      rw [hmd] at hok
      exact absurd hok (by simp)
    | some dst =>
      rw [hmd] at hok
      have hrs : route_steps map
          (orders.filter fun order => is_convoy_for order mv_ord && resolve order)
          mv_ord.region.province dst.province [] = rs := by
        simpa using hok
      rw [← hrs] at hr
      obtain ⟨ext, hre, hsubc, hchain, hnd, hne⟩ :=
        route_steps_sound map
          (orders.filter fun order => is_convoy_for order mv_ord && resolve order)
          dst.province _ mv_ord.region.province [] r le_rfl hr
      rw [List.nil_append] at hre
      subst hre
      refine ⟨hne, hnd List.nodup_nil, ?_, dst, rfl, hchain⟩
      intro c hc
      have := hsubc c hc
      rw [List.mem_filter, Bool.and_eq_true] at this
      exact this.2

/-- Witness for C2: a concrete route returned by `routes` in the example
geography, with its non-emptiness and distinctness read off the theorem. -/
theorem C2_routes_structure_witness :
    [exConvoy1, exConvoy4] ≠ [] ∧ [exConvoy1, exConvoy4].Nodup ∧
      (is_convoy_for exConvoy1 exMove = true ∧
        (fun _ : MappedMainOrder => true) exConvoy1 = true) := by
  have h := C2_routes_structure exMap (fun _ => true) exOrders exMove
    [[exConvoy1, exConvoy2, exConvoy3, exConvoy4], [exConvoy1, exConvoy4],
     [exConvoy3, exConvoy2, exConvoy1, exConvoy4], [exConvoy3, exConvoy4]]
    exRoutes_ok [exConvoy1, exConvoy4] (by decide)
  exact ⟨h.1, h.2.1, h.2.2.1 exConvoy1 (by decide)⟩

/-- Counterexample for C2 as stated: in the concrete example geography,
`routes` returns a route (four matching convoy orders, two of which — by
different nations — stand in the same region `p1`) whose regions are not
pairwise distinct. The search only forbids reusing the same convoy *order*,
not revisiting a *region*. -/
theorem C2_region_repeat_counterexample :
    routes exMap (fun _ => true) exOrders exMove = Except.ok
      [[exConvoy1, exConvoy2, exConvoy3, exConvoy4], [exConvoy1, exConvoy4],
       [exConvoy3, exConvoy2, exConvoy1, exConvoy4], [exConvoy3, exConvoy4]] ∧
    [exConvoy1, exConvoy2, exConvoy3, exConvoy4] ∈
      routes_list (routes exMap (fun _ => true) exOrders exMove) ∧
    ([exConvoy1, exConvoy2, exConvoy3, exConvoy4].all
      fun c => is_convoy_for c exMove) = true ∧
    ¬ ([exConvoy1, exConvoy2, exConvoy3, exConvoy4].map
      (fun c => c.region)).Nodup := by
  refine ⟨exRoutes_ok, ?_, by decide, by decide⟩
  rw [exRoutes_ok]
  decide

/-- C10: the convoy route search terminates on every input (witnessed by
`route_steps` being accepted as a total function on a strictly decreasing
measure), and — starting from a duplicate-free working path, in particular
the empty one used by `routes` — every route it returns consists of
pairwise-distinct convoy orders and is no longer than the working path plus
the convoy set, because a convoy already on the working path is never
appended again. -/
theorem C10_route_steps_nodup (map : GeoMap) (convoys : List MappedMainOrder)
    (origin dest : ProvinceKey) (wp : List MappedMainOrder) (hwp : wp.Nodup) :
    ∀ r ∈ route_steps map convoys origin dest wp,
      r.Nodup ∧ r.length ≤ wp.length + convoys.length := by
  intro r hr
  obtain ⟨ext, hre, hsubc, hchain, hnd, hne⟩ :=
    route_steps_sound map convoys dest
      ((convoys.filter (fun x => decide (x ∉ wp))).length) origin wp r le_rfl hr
  have hrnd := hnd hwp
  refine ⟨hrnd, ?_⟩
  have hextnd : ext.Nodup := by
    rw [hre] at hrnd
    exact hrnd.of_append_right
  have hsp := (List.subperm_of_subset hextnd (fun x hx => hsubc x hx)).length_le
  rw [hre, List.length_append]
  omega

/-- Witness for C10 at the concrete example: the empty working path is
duplicate-free and a returned route is duplicate-free and bounded. -/
theorem C10_route_steps_nodup_witness :
    ([] : List MappedMainOrder).Nodup ∧ ([exConvoy1, exConvoy4].Nodup ∧
      [exConvoy1, exConvoy4].length ≤
        ([] : List MappedMainOrder).length + exOrders.length) := by
  have h := C10_route_steps_nodup exMap exOrders "o" "d" [] List.nodup_nil
    [exConvoy1, exConvoy4] (by rw [exRoutes_eval]; decide)
  exact ⟨List.nodup_nil, h⟩

/-- C3: whenever a nation has two or more positions to sort, civil-disorder
disbandment in the build-phase `finish` step cannot proceed as the claim
describes: `sort_by_cached_key` computes a key for every position,
`distance_from_home` is `unimplemented!()`, so `finish` panics instead of
selecting units — and the sort key is distance alone, with no
fleets-before-armies or alphabetical tie-break anywhere. Concretely: France
must disband two of its two armies; resolving the empty order list leaves
both disbands outstanding, and the civil-disorder computation of `finish`
panics (`none`). The final conjunct records the boundary the panic does not
reach: with a single position the sort returns before computing any key, and
exactly the required unit is drained. -/
theorem C3_civil_disorder_unimplemented :
    exJudge3.init_data exCtxCd = [("fra", (BuildCommand.Disband, 2))] ∧
    (BuildResolverState_new exCtxCd (exJudge3.init_data exCtxCd)).unit_positions =
      [⟨"fra", UnitType.Army, ⟨"par", none⟩⟩,
       ⟨"fra", UnitType.Army, ⟨"bre", none⟩⟩] ∧
    resolve_orders exJudge3 exCtxCd
      (BuildResolverState_new exCtxCd (exJudge3.init_data exCtxCd)) exCtxCd.orders =
      some (BuildResolverState_new exCtxCd (exJudge3.init_data exCtxCd)) ∧
    civil_disorder_disbands exJudge3
      (BuildResolverState_new exCtxCd (exJudge3.init_data exCtxCd)) = none ∧
    civil_disorder_for exJudge3 [⟨"fra", UnitType.Army, ⟨"par", none⟩⟩]
      ("fra", (BuildCommand.Disband, 1)) =
      some [⟨"fra", UnitType.Army, ⟨"par", none⟩⟩] := by
  refine ⟨rfl, rfl, rfl, rfl, rfl⟩

/-- C7: the build-phase `ResolverContext` constructor panics exactly on an
empty `last_time` ownership map, and otherwise returns the context with the
supplied fields. -/
theorem C7_resolver_context_new (last_time : List (ProvinceKey × Nation))
    (this_time : WorldState) (orders : List MappedBuildOrder) :
    (ResolverContext_new last_time this_time orders = none ↔ last_time = []) ∧
    (∀ ctx, ResolverContext_new last_time this_time orders = some ctx →
      ctx.last_time = last_time ∧ ctx.this_time = this_time ∧
        ctx.orders = orders) := by
  cases last_time with
  | nil =>
    constructor
    · simp [ResolverContext_new]
    · intro ctx h
      simp [ResolverContext_new] at h
  | cons a t =>
    constructor
    · simp [ResolverContext_new]
    · intro ctx h
      simp only [ResolverContext_new, List.isEmpty_cons, if_false,
        Bool.false_eq_true, Option.some.injEq] at h
      rw [← h]
      exact ⟨rfl, rfl, rfl⟩

/-- Witness for C7: a one-entry ownership map is accepted. -/
theorem C7_resolver_context_new_witness :
    ¬ (ResolverContext_new [("par", "fra")] exWorld3 [] = none) := by
  intro hn
  have h := (C7_resolver_context_new [("par", "fra")] exWorld3 []).1.mp hn
  simp at h

/-- Counterexample for C5 as stated: at the very first order of the phase
(empty verdict cache, so no unit has been built this phase), with every
earlier check passing, the verdict is already `OccupiedProvince` — because
`state.occupier` consults the live unit set seeded with the *pre-existing*
units, here Austria's own army standing in `bud` since before the phase. -/
theorem C5_preexisting_unit_counterexample :
    exState5.orders = [] ∧
    exState5.data.lookup exOrder5.nation = some (BuildCommand.Build, 1) ∧
    exOrder5.command = BuildCommand.Build ∧
    exOrder5.region.province ∈ exJudge5.home_scs exOrder5.nation ∧
    current_owner exCtx5 exOrder5.region.province = some exOrder5.nation ∧
    exJudge5.adjudicate exCtx5 exState5 exOrder5 =
      some (OrderOutcome.OccupiedProvince, exState5) := by
  refine ⟨rfl, rfl, rfl, by decide, rfl, rfl⟩

/-- C5 (amended): for every Build order passing the earlier checks (the
nation is in the adjustment table with direction `Build`, the command is
`Build`, the target province is one of the nation's home supply centers and
is currently owned by it), the verdict is `OccupiedProvince` exactly when
*some unit — of any nation, pre-existing or built earlier this phase —
currently occupies the province in the live unit set* (disbanded units
having been removed). -/
theorem C5_occupied_province (j : StandardBuildJudge) (ctx : BuildResolverContext)
    (state : BuildResolverState) (order : MappedBuildOrder) (remaining : Nat)
    (h1 : state.data.lookup order.nation = some (BuildCommand.Build, remaining))
    (h2 : order.command = BuildCommand.Build)
    (h3 : order.region.province ∈ j.home_scs order.nation)
    (h4 : current_owner ctx order.region.province = some order.nation) :
    ((j.adjudicate ctx state order).map (fun x => x.1) =
        some OrderOutcome.OccupiedProvince ↔
      (state.occupier order.region.province).isSome = true) := by
  have hne : (j.home_scs order.nation).isEmpty = false := by
    have hx := List.ne_nil_of_mem h3
    simp only [Bool.eq_false_iff, ne_eq, List.isEmpty_iff]
    exact hx
  have hcont : (j.home_scs order.nation).contains order.region.province = true := by
    exact List.elem_iff.mpr h3
  unfold StandardBuildJudge.adjudicate
  rw [h1, h2]
  simp only [bne_self_eq_false, Bool.false_eq_true, if_false, hne, hcont, h4,
    beq_self_eq_true, Bool.not_true, Bool.not_false, if_true]
  cases hocc : (state.occupier order.region.province).isSome with
  | true => simp [hocc]
  | false =>
    simp only [hocc, Bool.false_eq_true, if_false]
    cases hgr : j.get_region order.region with
    | none => simp
    | some region =>
      split
      · simp
      · split
        · simp
        · split <;> simp

/-- Witness for C5: in the concrete occupied-province scenario every earlier
check passes and the verdict is `OccupiedProvince`. -/
theorem C5_occupied_province_witness :
    (exJudge5.adjudicate exCtx5 exState5 exOrder5).map (fun x => x.1) =
      some OrderOutcome.OccupiedProvince := by
  exact (C5_occupied_province exJudge5 exCtx5 exState5 exOrder5 1 rfl rfl
    (by decide) rfl).mpr (by decide)

theorem outcome_new_units_ok (rest : List UnitPosition) :
    ∀ (seen : List ProvinceKey) (l : List UnitPosition),
      outcome_new_units seen rest = Except.ok l ↔
        (l = rest ∧ (rest.map (fun u => u.region.province)).Nodup ∧
          ∀ u ∈ rest, u.region.province ∉ seen) := by
  induction rest with
  | nil =>
    intro seen l
    constructor
    · intro h
      simp only [outcome_new_units, Except.ok.injEq] at h
      exact ⟨h.symm, by simp, by simp⟩
    · rintro ⟨rfl, _, _⟩
      rfl
  | cons u rest ih =>
    intro seen l
    simp only [outcome_new_units]
    by_cases hmem : u.region.province ∈ seen
    · rw [if_pos hmem]
      constructor
      · intro h
        exact absurd h (by simp)
      · rintro ⟨_, _, hall⟩
        exact absurd (hall u (List.mem_cons_self u rest)) (by simp [hmem])
    · rw [if_neg hmem]
      cases hrec : outcome_new_units (u.region.province :: seen) rest with
      | error e =>
        constructor
        · intro h
          exact absurd h (by simp [Except.map])
        · rintro ⟨hl, hnd, hseen⟩
          simp only [List.map_cons, List.nodup_cons, List.mem_map] at hnd
          have hok : outcome_new_units (u.region.province :: seen) rest =
              Except.ok rest := by
            refine (ih _ rest).mpr ⟨rfl, hnd.2, ?_⟩
            intro x hx
            rw [List.mem_cons]
            rintro (heq | hin)
            · exact hnd.1 ⟨x, hx, heq⟩
            · exact hseen x (List.mem_cons_of_mem u hx) hin
          rw [hrec] at hok
          exact absurd hok (by simp)
      | ok l' =>
        obtain ⟨rfl, hnd', hseen'⟩ := (ih (u.region.province :: seen) l').mp hrec
        constructor
        · intro h
          simp only [Except.map, Except.ok.injEq] at h
          refine ⟨h.symm, ?_, ?_⟩
          · simp only [List.map_cons, List.nodup_cons, List.mem_map]
            refine ⟨?_, hnd'⟩
            rintro ⟨x, hx, heq⟩
            exact hseen' x hx (by rw [heq]; exact List.mem_cons_self _ _)
          · intro x hx
            rcases List.mem_cons.mp hx with rfl | hx'
            · exact hmem
            · intro hin
              exact hseen' x hx' (List.mem_cons_of_mem _ hin)
        · rintro ⟨rfl, _, _⟩
          simp [Except.map]

theorem outcome_new_units_error (rest : List UnitPosition) :
    ∀ (seen : List ProvinceKey) (p : ProvinceKey),
      outcome_new_units seen rest = Except.error p →
      p ∈ rest.map (fun u => u.region.province) ∧
        (p ∈ seen ∨ 2 ≤ (rest.map (fun u => u.region.province)).count p) := by
  induction rest with
  | nil =>
    intro seen p h
    simp [outcome_new_units] at h
  | cons u rest ih =>
    intro seen p h
    simp only [outcome_new_units] at h
    by_cases hmem : u.region.province ∈ seen
    · rw [if_pos hmem] at h
      have heq : u.region.province = p := by simpa using h
      subst heq
      exact ⟨by simp, Or.inl hmem⟩
    · rw [if_neg hmem] at h
      cases hrec : outcome_new_units (u.region.province :: seen) rest with
      | ok l =>
        rw [hrec] at h
        simp [Except.map] at h
      | error e =>
        rw [hrec] at h
        have he : e = p := by simpa [Except.map] using h
        subst he
        obtain ⟨hp, hor⟩ := ih (u.region.province :: seen) e hrec
        refine ⟨by simp only [List.map_cons, List.mem_cons]; exact Or.inr hp, ?_⟩
        rcases hor with hseen | hcount
        · rcases List.mem_cons.mp hseen with heq | hseen'
          · right
            rw [heq] at hp ⊢
            have hpos : 0 < (rest.map (fun u => u.region.province)).count
                u.region.province := List.count_pos_iff.mpr hp
            simp only [List.map_cons, List.count_cons_self]
            omega
          · exact Or.inl hseen'
        · right
          simp only [List.map_cons, List.count_cons]
          omega

/-- C6: `Outcome::new` rejects a unit set exactly when two units share a
province: it returns `Err(MultipleUnitsInSameProvince p)` only for a
province `p` held by at least two of the given units, it errors whenever the
written provinces are not pairwise distinct, and otherwise it returns `Ok`
with exactly the given units as the final positions. -/
theorem C6_outcome_new (orders : List (MappedBuildOrder × OrderOutcome))
    (scs : List (ProvinceKey × Nation)) (units : List UnitPosition) :
    (Outcome_new orders scs units =
        Except.ok ⟨orders, scs, units⟩ ↔
      (units.map (fun u => u.region.province)).Nodup) ∧
    (∀ p, Outcome_new orders scs units =
        Except.error (OutcomeError.MultipleUnitsInSameProvince p) →
      2 ≤ (units.map (fun u => u.region.province)).count p) ∧
    (¬ (units.map (fun u => u.region.province)).Nodup →
      ∃ p, Outcome_new orders scs units =
        Except.error (OutcomeError.MultipleUnitsInSameProvince p)) := by
  unfold Outcome_new
  cases h : outcome_new_units [] units with
  | ok l =>
    obtain ⟨rfl, hnd, _⟩ := (outcome_new_units_ok units [] l).mp h
    refine ⟨?_, ?_, ?_⟩
    · simp [hnd]
    · intro p hp
      exact absurd hp (by simp)
    · intro habs
      exact absurd hnd habs
  | error p0 =>
    have herr := outcome_new_units_error units [] p0 h
    have hnotnd : ¬ (units.map (fun u => u.region.province)).Nodup := by
      rcases herr.2 with hfalse | hcount
      · exact absurd hfalse (by simp)
      · intro hnd
        have := List.nodup_iff_count_le_one.mp hnd p0
        omega
    refine ⟨?_, ?_, ?_⟩
    · simp [hnotnd]
    · intro p hp
      have : p0 = p := by simpa using hp
      subst this
      rcases herr.2 with hfalse | hcount
      · exact absurd hfalse (by simp)
      · exact hcount
    · intro _
      exact ⟨p0, rfl⟩

/-- Witness for C6: the duplicate-province list is rejected with a province
held twice, and the distinct-province list is returned unchanged. -/
theorem C6_outcome_new_witness :
    2 ≤ (exUnitsDup.map (fun u => u.region.province)).count "par" ∧
    Outcome_new [] [] exUnitsOk = Except.ok ⟨[], [], exUnitsOk⟩ := by
  refine ⟨(C6_outcome_new [] [] exUnitsDup).2.1 "par" rfl,
    (C6_outcome_new [] [] exUnitsOk).1.mpr (by decide)⟩

theorem resolve_order_cached (j : StandardBuildJudge) (ctx : BuildResolverContext)
    (state : BuildResolverState) (order : MappedBuildOrder) (outcome : OrderOutcome)
    (h : state.orders.lookup order = some outcome) :
    resolve_order j ctx state order = some (outcome, state) := by
  unfold resolve_order
  rw [h]

theorem build_unit_preserves (state : BuildResolverState) (nation : Nation)
    (unit_type : UnitType) (region : RegionKey) (s3 : BuildResolverState)
    (h : state.build_unit nation unit_type region = some s3) :
    s3.orders = state.orders ∧ s3.data = state.data := by
  unfold BuildResolverState.build_unit at h
  split at h
  · simp only [Option.some.injEq] at h
    rw [← h]
    exact ⟨rfl, rfl⟩
  · exact absurd h (by simp)

theorem adjudicate_orders_eq (j : StandardBuildJudge) (ctx : BuildResolverContext)
    (state : BuildResolverState) (order : MappedBuildOrder)
    (out : OrderOutcome) (s2 : BuildResolverState)
    (h : j.adjudicate ctx state order = some (out, s2)) :
    s2.orders = state.orders ∧ s2.live_units = state.live_units := by
  unfold StandardBuildJudge.adjudicate at h
  repeat' split at h
  all_goals
    first
    | (simp only [Option.some.injEq, Prod.mk.injEq] at h
       rw [← h.2]
       exact ⟨rfl, rfl⟩)
    | (exact absurd h (by simp))

theorem resolve_order_shape (j : StandardBuildJudge) (ctx : BuildResolverContext)
    (state : BuildResolverState) (order : MappedBuildOrder)
    (out : OrderOutcome) (s' : BuildResolverState)
    (h : resolve_order j ctx state order = some (out, s')) :
    (state.orders.lookup order = some out ∧ s' = state) ∨
    (state.orders.lookup order = none ∧
      ∃ s1, j.adjudicate ctx state order = some (out, s1) ∧
        s'.orders = s1.orders ++ [(order, out)] ∧ s'.data = s1.data) := by
  unfold resolve_order at h
  split at h
  · rename_i outcome heq
    simp only [Option.some.injEq, Prod.mk.injEq] at h
    left
    rw [← h.1, ← h.2]
    exact ⟨heq, rfl⟩
  · rename_i heq
    split at h
    · exact absurd h (by simp)
    · rename_i out1 s1 ha
      right
      refine ⟨heq, s1, ?_⟩
      by_cases hsc : (out1 == OrderOutcome.Succeeds) = true
      · rw [if_pos hsc] at h
        cases hcm : order.command with
        | Build =>
          rw [hcm] at h
          cases hb : BuildResolverState.build_unit
              { s1 with orders := s1.orders ++ [(order, out1)] }
              order.nation order.unit_type order.region with
          | none =>
            rw [hb] at h
            exact absurd h (by simp)
          | some s3 =>
            rw [hb] at h
            simp only [Option.map, Option.some.injEq, Prod.mk.injEq] at h
            obtain ⟨h1, h2⟩ := h
            obtain ⟨ho, hd⟩ := build_unit_preserves _ _ _ _ _ hb
            rw [← h1, ← h2]
            exact ⟨ha, ho, hd⟩
        | Disband =>
          rw [hcm] at h
          simp only [Option.some.injEq, Prod.mk.injEq] at h
          obtain ⟨h1, h2⟩ := h
          rw [← h1, ← h2]
          exact ⟨ha, rfl, rfl⟩
      · rw [if_neg hsc] at h
        simp only [Option.some.injEq, Prod.mk.injEq] at h
        obtain ⟨h1, h2⟩ := h
        rw [← h1, ← h2]
        exact ⟨ha, rfl, rfl⟩

theorem resolve_order_self_cached (j : StandardBuildJudge)
    (ctx : BuildResolverContext) (state : BuildResolverState)
    (order : MappedBuildOrder) (out : OrderOutcome) (s' : BuildResolverState)
    (h : resolve_order j ctx state order = some (out, s')) :
    s'.orders.lookup order = some out := by
  rcases resolve_order_shape j ctx state order out s' h with
    ⟨hc, rfl⟩ | ⟨hc, s1, ha, horders, _⟩
  · exact hc
  · have hs1 := (adjudicate_orders_eq j ctx state order out s1 ha).1
    rw [horders, hs1, List.lookup_append, hc]
    simp [List.lookup_cons]

theorem resolve_order_lookup_preserved (j : StandardBuildJudge)
    (ctx : BuildResolverContext) (state : BuildResolverState)
    (order : MappedBuildOrder) (out : OrderOutcome) (s' : BuildResolverState)
    (h : resolve_order j ctx state order = some (out, s'))
    (o : MappedBuildOrder) (v : OrderOutcome)
    (hv : state.orders.lookup o = some v) :
    s'.orders.lookup o = some v := by
  rcases resolve_order_shape j ctx state order out s' h with
    ⟨_, rfl⟩ | ⟨_, s1, ha, horders, _⟩
  · exact hv
  · have hs1 := (adjudicate_orders_eq j ctx state order out s1 ha).1
    rw [horders, hs1, List.lookup_append, hv]
    rfl

theorem adjudicate_data_cases (j : StandardBuildJudge) (ctx : BuildResolverContext)
    (state : BuildResolverState) (order : MappedBuildOrder)
    (out : OrderOutcome) (s2 : BuildResolverState)
    (h : j.adjudicate ctx state order = some (out, s2)) :
    (out = OrderOutcome.Succeeds ∧
      delta_magnitude state.data order.nation ≠ 0 ∧
      s2 = decrement_remaining state order.nation) ∨
    (out ≠ OrderOutcome.Succeeds ∧ s2 = state) := by
  unfold StandardBuildJudge.adjudicate at h
  split at h
  · simp only [Option.some.injEq, Prod.mk.injEq] at h
    exact Or.inr ⟨by rw [← h.1]; decide, h.2.symm⟩
  · rename_i ac rem heq
    split at h
    · simp only [Option.some.injEq, Prod.mk.injEq] at h
      exact Or.inr ⟨by rw [← h.1]; decide, h.2.symm⟩
    · split at h
      · split at h
        · exact absurd h (by simp)
        · split at h
          · simp only [Option.some.injEq, Prod.mk.injEq] at h
            exact Or.inr ⟨by rw [← h.1]; decide, h.2.symm⟩
          · split at h
            · simp only [Option.some.injEq, Prod.mk.injEq] at h
              exact Or.inr ⟨by rw [← h.1]; decide, h.2.symm⟩
            · split at h
              · simp only [Option.some.injEq, Prod.mk.injEq] at h
                exact Or.inr ⟨by rw [← h.1]; decide, h.2.symm⟩
              · split at h
                · simp only [Option.some.injEq, Prod.mk.injEq] at h
                  exact Or.inr ⟨by rw [← h.1]; decide, h.2.symm⟩
                · split at h
                  · simp only [Option.some.injEq, Prod.mk.injEq] at h
                    exact Or.inr ⟨by rw [← h.1]; decide, h.2.symm⟩
                  · split at h
                    · simp only [Option.some.injEq, Prod.mk.injEq] at h
                      exact Or.inr ⟨by rw [← h.1]; decide, h.2.symm⟩
                    · rename_i hrem
                      simp only [Option.some.injEq, Prod.mk.injEq] at h
                      refine Or.inl ⟨h.1.symm, ?_, h.2.symm⟩
                      unfold delta_magnitude
                      rw [heq]
                      simpa using hrem
      · split at h
        · simp only [Option.some.injEq, Prod.mk.injEq] at h
          exact Or.inr ⟨by rw [← h.1]; decide, h.2.symm⟩
        · split at h
          · simp only [Option.some.injEq, Prod.mk.injEq] at h
            exact Or.inr ⟨by rw [← h.1]; decide, h.2.symm⟩
          · split at h
            · simp only [Option.some.injEq, Prod.mk.injEq] at h
              exact Or.inr ⟨by rw [← h.1]; decide, h.2.symm⟩
            · rename_i hrem
              simp only [Option.some.injEq, Prod.mk.injEq] at h
              refine Or.inl ⟨h.1.symm, ?_, h.2.symm⟩
              unfold delta_magnitude
              rw [heq]
              simpa using hrem

theorem lookup_map_decrement (data : List (Nation × (BuildCommand × Nat)))
    (n m : Nation) :
    (data.map (fun d => if d.1 == n then (d.1, (d.2.1, d.2.2 - 1)) else d)).lookup m =
      (data.lookup m).map (fun cv => if m == n then (cv.1, cv.2 - 1) else cv) := by
  induction data with
  | nil => rfl
  | cons d rest ih =>
    obtain ⟨k, v⟩ := d
    simp only [List.map_cons]
    by_cases hkn : (k == n) = true
    · rw [if_pos hkn]
      rw [List.lookup_cons, List.lookup_cons]
      cases hmk : (m == k) with
      | true =>
        have hmn : (m == n) = true := by
          have h1 : m = k := by simpa using hmk
          have h2 : k = n := by simpa using hkn
          simp [h1, h2]
        simp [hmn]
      | false => exact ih
    · rw [if_neg hkn]
      rw [List.lookup_cons, List.lookup_cons]
      cases hmk : (m == k) with
      | true =>
        have hmn : (m == n) = false := by
          have h1 : m = k := by simpa using hmk
          have h2 : ¬ k = n := by simpa using hkn
          simp [h1, h2]
        simp [hmn]
      | false => exact ih

theorem delta_magnitude_decrement (state : BuildResolverState) (n m : Nation) :
    delta_magnitude (decrement_remaining state n).data m =
      if m = n then delta_magnitude state.data m - 1
      else delta_magnitude state.data m := by
  unfold delta_magnitude decrement_remaining
  simp only []
  rw [lookup_map_decrement]
  cases hl : state.data.lookup m with
  | none => by_cases hmn : m = n <;> simp [Option.map, hmn]
  | some cv =>
    by_cases hmn : m = n
    · simp [Option.map, hmn]
    · simp [Option.map, hmn]

/-- The per-nation accounting invariant of a build resolution: successful
cached orders plus the remaining quota always equal the initial delta
magnitude recorded at initialization. -/
def DataInvariant (data0 : List (Nation × (BuildCommand × Nat)))
    (state : BuildResolverState) : Prop :=
  ∀ n : Nation, success_count state n + delta_magnitude state.data n =
    delta_magnitude data0 n

theorem resolve_order_invariant (j : StandardBuildJudge)
    (ctx : BuildResolverContext) (data0 : List (Nation × (BuildCommand × Nat)))
    (state : BuildResolverState) (order : MappedBuildOrder)
    (out : OrderOutcome) (s' : BuildResolverState)
    (h : resolve_order j ctx state order = some (out, s'))
    (hinv : DataInvariant data0 state) : DataInvariant data0 s' := by
  rcases resolve_order_shape j ctx state order out s' h with
    ⟨_, rfl⟩ | ⟨_, s1, ha, horders, hdata⟩
  · exact hinv
  · intro n
    have hs1o := (adjudicate_orders_eq j ctx state order out s1 ha).1
    have hsc : success_count s' n =
        success_count state n +
          (if (order.nation == n && (out == OrderOutcome.Succeeds) : Bool) = true
            then 1 else 0) := by
      unfold success_count
      rw [horders, hs1o, List.countP_append]
      simp [List.countP_cons]
    rcases adjudicate_data_cases j ctx state order out s1 ha with
      ⟨hout, hmag, hs1⟩ | ⟨hout, hs1⟩
    · subst hout
      have hmagd : delta_magnitude s'.data n =
          if n = order.nation then delta_magnitude state.data n - 1
          else delta_magnitude state.data n := by
        rw [hdata, hs1]
        exact delta_magnitude_decrement state order.nation n
      by_cases hn : order.nation = n
      · rw [hsc, hmagd]
        have h1 := hinv n
        rw [if_pos (by simp [hn]), if_pos hn.symm]
        rw [← hn] at h1 ⊢
        omega
      · rw [hsc, hmagd]
        have h1 := hinv n
        rw [if_neg (by simp [hn]), if_neg (fun hx => hn hx.symm)]
        omega
    · have hmagd : delta_magnitude s'.data n = delta_magnitude state.data n := by
        rw [hdata, hs1]
      rw [hsc, hmagd]
      have h1 := hinv n
      rw [if_neg (by simp [hout])]
      omega

theorem resolve_orders_invariant (j : StandardBuildJudge)
    (ctx : BuildResolverContext) (data0 : List (Nation × (BuildCommand × Nat)))
    (orders : List MappedBuildOrder) :
    ∀ (state final : BuildResolverState),
      resolve_orders j ctx state orders = some final →
      DataInvariant data0 state → DataInvariant data0 final := by
  induction orders with
  | nil =>
    intro state final h hinv
    simp only [resolve_orders, Option.some.injEq] at h
    rw [← h]
    exact hinv
  | cons order rest ih =>
    intro state final h hinv
    simp only [resolve_orders] at h
    cases hro : resolve_order j ctx state order with
    | none => rw [hro] at h; exact absurd h (by simp)
    | some p =>
      obtain ⟨out, next⟩ := p
      rw [hro] at h
      exact ih next final h
        (resolve_order_invariant j ctx data0 state order out next hro hinv)

/-- C8: in a completed build resolution, the number of a nation's orders
adjudicated `Succeeds` never exceeds the magnitude of its delta recorded at
initialization (builds are bounded by a positive delta, disbands by the
magnitude of a negative one — the table stores a single direction per
nation, so the bound is exactly `|successful builds − successful disbands| ≤
|delta|`). -/
theorem C8_build_symmetry (j : StandardBuildJudge) (ctx : BuildResolverContext)
    (orders : List MappedBuildOrder) (final : BuildResolverState)
    (hrun : resolve_orders j ctx
      (BuildResolverState_new ctx (j.init_data ctx)) orders = some final)
    (nation : Nation) :
    success_count final nation ≤ delta_magnitude (j.init_data ctx) nation := by
  have hbase : DataInvariant (j.init_data ctx)
      (BuildResolverState_new ctx (j.init_data ctx)) := by
    intro n
    simp [success_count, BuildResolverState_new]
  have hinv := resolve_orders_invariant j ctx (j.init_data ctx) orders
    (BuildResolverState_new ctx (j.init_data ctx)) final hrun hbase
  have := hinv nation
  omega

/-- Witness for C8: the concrete one-order run in which Austria builds once
against a delta of two. -/
theorem C8_build_symmetry_witness :
    success_count exFinal8 "aus" ≤ delta_magnitude (exJudge5.init_data exCtx8) "aus" :=
  C8_build_symmetry exJudge5 exCtx8 [exOrder5] exFinal8 rfl "aus"

theorem resolve_orders_skip_cached (j : StandardBuildJudge)
    (ctx : BuildResolverContext) (l2 l3 : List MappedBuildOrder)
    (order : MappedBuildOrder) :
    ∀ (state : BuildResolverState) (v : OrderOutcome),
      state.orders.lookup order = some v →
      resolve_orders j ctx state (l2 ++ order :: l3) =
        resolve_orders j ctx state (l2 ++ l3) := by
  induction l2 with
  | nil =>
    intro state v hv
    simp only [List.nil_append, resolve_orders]
    rw [resolve_order_cached j ctx state order v hv]
  | cons a t ih =>
    intro state v hv
    simp only [List.cons_append, resolve_orders]
    cases hro : resolve_order j ctx state a with
    | none => rfl
    | some p =>
      obtain ⟨out, s'⟩ := p
      exact ih s' v
        (resolve_order_lookup_preserved j ctx state a out s' hro order v hv)

/-- C9: build-phase order resolution is idempotent per order. Calling
`resolve_order` on an order already in the verdict cache returns the
recorded outcome and leaves the state untouched, so a duplicated order
anywhere in the order list changes neither any verdict nor the final state
compared to listing it once. -/
theorem C9_resolve_order_idempotent :
    (∀ (j : StandardBuildJudge) (ctx : BuildResolverContext)
        (state : BuildResolverState) (order : MappedBuildOrder)
        (outcome : OrderOutcome),
      state.orders.lookup order = some outcome →
      resolve_order j ctx state order = some (outcome, state)) ∧
    (∀ (j : StandardBuildJudge) (ctx : BuildResolverContext)
        (state : BuildResolverState) (l1 l2 l3 : List MappedBuildOrder)
        (order : MappedBuildOrder),
      resolve_orders j ctx state (l1 ++ order :: l2 ++ order :: l3) =
        resolve_orders j ctx state (l1 ++ order :: l2 ++ l3)) := by
  constructor
  · exact resolve_order_cached
  · intro j ctx state l1 l2 l3 order
    induction l1 generalizing state with
    | nil =>
      simp only [List.nil_append, resolve_orders]
      cases hro : resolve_order j ctx state order with
      | none => rfl
      | some p =>
        obtain ⟨out, s'⟩ := p
        exact resolve_orders_skip_cached j ctx l2 l3 order s' out
          (resolve_order_self_cached j ctx state order out s' hro)
    | cons a t ih =>
      simp only [List.cons_append, resolve_orders]
      cases hro : resolve_order j ctx state a with
      | none => rfl
      | some p =>
        obtain ⟨out, s'⟩ := p
        exact ih s'

/-- Witness for C9: a cached order is returned unchanged, and duplicating
the single order of the build-symmetry run leaves the resolution
unchanged. -/
theorem C9_resolve_order_idempotent_witness :
    resolve_order exJudge5 exCtx8 exFinal8 exOrder5 =
      some (OrderOutcome.Succeeds, exFinal8) ∧
    resolve_orders exJudge5 exCtx8
      (BuildResolverState_new exCtx8 (exJudge5.init_data exCtx8))
      [exOrder5, exOrder5] =
      resolve_orders exJudge5 exCtx8
        (BuildResolverState_new exCtx8 (exJudge5.init_data exCtx8))
        [exOrder5] := by
  exact ⟨C9_resolve_order_idempotent.1 exJudge5 exCtx8 exFinal8 exOrder5
      OrderOutcome.Succeeds rfl,
    C9_resolve_order_idempotent.2 exJudge5 exCtx8
      (BuildResolverState_new exCtx8 (exJudge5.init_data exCtx8)) [] [] [] exOrder5⟩

theorem lookup_filterMap_adjustment (f : Nation → Option (BuildCommand × Nat)) :
    ∀ (l : List Nation) (n : Nation),
      (l.filterMap (fun m => (f m).map (fun a => (m, a)))).lookup n =
        if n ∈ l then f n else none := by
  intro l
  induction l with
  | nil => intro n; simp
  | cons a t ih =>
    intro n
    cases hfa : f a with
    | none =>
      simp only [List.filterMap_cons, hfa, Option.map_none']
      rw [ih]
      by_cases hn : n = a
      · subst hn
        by_cases hnt : n ∈ t
        · simp [hnt]
        · simp [hnt, hfa]
      · simp [hn]
    | some v =>
      simp only [List.filterMap_cons, hfa, Option.map_some']
      rw [List.lookup_cons]
      by_cases hn : (n == a) = true
      · have heq : n = a := by simpa using hn
        subst heq
        simp [hn, hfa]
      · simp only [hn]
        rw [ih]
        have hne : n ≠ a := by simpa using hn
        simp [hne]

theorem find_beq_self (l : List Nation) (n : Nation) (h : n ∈ l) :
    l.find? (fun x => x == n) = some n := by
  induction l with
  | nil => cases h
  | cons a t ih =>
    rcases List.mem_cons.mp h with rfl | ht
    · simp [List.find?]
    · by_cases ha : (a == n) = true
      · have heq : a = n := by simpa using ha
        subst heq
        simp [List.find?]
      · rw [List.find?_cons_of_neg _ (by simpa using ha)]
        exact ih ht

theorem sc_count_eq (j : StandardBuildJudge) (ctx : BuildResolverContext)
    (n : Nation) (hmem : n ∈ j.nations) :
    sc_count j ctx n = (j.provinces.filter (fun p => p.is_supply_center)).countP
      (fun p => current_owner ctx p.key == some n) := by
  unfold sc_count
  apply List.countP_congr
  intro p _
  simp only [beq_iff_eq]
  cases ho : current_owner ctx p.key with
  | none => simp [Option.bind]
  | some m =>
    simp only [Option.bind]
    constructor
    · intro hg
      unfold StandardBuildJudge.get_nation at hg
      have hpred := List.find?_some hg
      have : n = m := by simpa using hpred
      rw [this]
    · intro hs
      have hmn : m = n := by
        injection hs
      subst hmn
      unfold StandardBuildJudge.get_nation
      exact find_beq_self j.nations m hmem

/-- C4: the build-phase initialization maps each nation to its adjustment:
`owned` counts the supply-center provinces whose current owner
(`this_time.occupier(p)` falling back to `last_time[p]`) is that nation;
`delta = owned − unit_count`; positive delta is recorded as `(Build, delta)`,
negative as `(Disband, −delta)`, and a zero delta leaves the nation out of
the table. -/
theorem C4_init_data_adjustments (j : StandardBuildJudge)
    (ctx : BuildResolverContext) (nation : Nation) (hmem : nation ∈ j.nations) :
    (j.init_data ctx).lookup nation =
      (let owned : Int := ((j.provinces.filter (fun p => p.is_supply_center)).countP
          (fun p => current_owner ctx p.key == some nation) : Int)
       let delta : Int := owned - (ctx.this_time.unit_count nation : Int)
       if delta = 0 then none
       else if 0 < delta then some (BuildCommand.Build, delta.toNat)
       else some (BuildCommand.Disband, (-delta).toNat)) := by
  unfold StandardBuildJudge.init_data
  rw [lookup_filterMap_adjustment (nation_adjustment j ctx) j.nations nation,
    if_pos hmem]
  unfold nation_adjustment
  rw [sc_count_eq j ctx nation hmem]

/-- Witness for C4: France, fielding one army and owning no supply center,
is recorded as `(Disband, 1)`. -/
theorem C4_init_data_adjustments_witness :
    (exJudge3.init_data exCtx3).lookup "fra" = some (BuildCommand.Disband, 1) := by
  have h := C4_init_data_adjustments exJudge3 exCtx3 "fra" (by decide)
  rw [h]
  decide
